import Mathlib

/-!
A shallow embedding of `src/parse.py`, an IPPcode24 → XML front end.

Lines are modelled as strings without their terminating newline (Python's
`fileinput` yields lines with a trailing `'\n'`; the source's regexes treat a
single trailing newline transparently via `$`, and `str.split` discards it, so
the two views coincide on the pipeline's behaviour).  Python's Unicode-aware
whitespace set is embedded explicitly; `str.upper`/`str.lower` are embedded on
the ASCII range, which covers every opcode and literal-tag comparison the
program performs.
-/

set_option maxRecDepth 8192

namespace IppParse

/-- Decidable equality on `Except`, for evaluating concrete runs of the
parser in proofs. -/
instance {ε α : Type} [DecidableEq ε] [DecidableEq α] : DecidableEq (Except ε α) := fun x y =>
  match x, y with
  | .ok a, .ok b =>
    if h : a = b then isTrue (by rw [h])
    else isFalse (fun hh => h (by injection hh))
  | .error a, .error b =>
    if h : a = b then isTrue (by rw [h])
    else isFalse (fun hh => h (by injection hh))
  | .ok _, .error _ => isFalse (fun hh => Except.noConfusion hh)
  | .error _, .ok _ => isFalse (fun hh => Except.noConfusion hh)

/-- Whitespace characters recognised by Python's `str.split`, `str.strip`,
`int()` and the regex class `\s` on `str` inputs. -/
def isPySpace (c : Char) : Bool :=
  let n := c.toNat
  decide (n = 0x20 ∨ (0x9 ≤ n ∧ n ≤ 0xd) ∨ (0x1c ≤ n ∧ n ≤ 0x1f) ∨ n = 0x85 ∨
    n = 0xa0 ∨ n = 0x1680 ∨ (0x2000 ≤ n ∧ n ≤ 0x200a) ∨ n = 0x2028 ∨
    n = 0x2029 ∨ n = 0x202f ∨ n = 0x205f ∨ n = 0x3000)

/-- The regex class `[^\S\r\n]` used by `find_header`: whitespace other than
carriage return and line feed. -/
def isInlineWs (c : Char) : Bool :=
  isPySpace c && !(c == '\r') && !(c == '\n')

/-- Python `str.strip()` with no arguments. -/
def pyStrip (cs : List Char) : List Char :=
  ((cs.dropWhile isPySpace).reverse.dropWhile isPySpace).reverse

/-- Accumulator-driven core of Python `str.split()` with no arguments. -/
def pySplitAux : List Char → List Char → List (List Char)
  | [], [] => []
  | [], acc => [acc.reverse]
  | c :: cs, acc =>
    if isPySpace c then
      match acc with
      | [] => pySplitAux cs []
      | _ => acc.reverse :: pySplitAux cs []
    else
      pySplitAux cs (c :: acc)

/-- Python `str.split()` with no arguments: split on runs of whitespace,
discarding empty pieces. -/
def pySplit (cs : List Char) : List (List Char) :=
  pySplitAux cs []

/-- Source `remove_comment`: drop everything from the first `#` on; a line
with no `#` is returned unchanged (`line.find` + slice). -/
def remove_comment (cs : List Char) : List Char :=
  cs.takeWhile (fun c => !(c == '#'))

/-- Source `tokenize_line`: strip the comment, trim, split on whitespace and
upper-case the first token (`str.upper`, embedded on ASCII). -/
def tokenize_line (line : String) : List String :=
  match pySplit (pyStrip (remove_comment line.data)) with
  | [] => []
  | w :: ws => String.mk (w.map Char.toUpper) :: ws.map String.mk

/-- Source class `Argument`: a validated operand, its semantic kind tag
(`ipptype`) and its literal text. -/
structure Argument where
  ipptype : String
  text : String
deriving DecidableEq, Repr

/-- Source class `Instruction`: order number, opcode and argument list. -/
structure Instruction where
  order : Nat
  opcode : String
  args : List Argument
deriving DecidableEq, Repr

/-- Source exception `ParseError`: a diagnostic message and a process exit
code.  `SourceError` is the specialisation with exit code 23. -/
structure PErr where
  msg : String
  code : Nat
deriving DecidableEq, Repr

/-- Source `SourceError.__init__`: prefix the message, fix exit code 23. -/
def sourceErr (m : String) : PErr :=
  ⟨"Lexikální nebo syntaktická chyba: " ++ m, 23⟩

/-- Wrap a string in double quotes, as the source's f-strings do. -/
def q (s : String) : String := "\"" ++ s ++ "\""

/-- Decimal digit. -/
def isDecDigit (c : Char) : Bool := c.isDigit

/-- Hexadecimal digit as accepted by Python `int(s, 16)`. -/
def isHexDigit (c : Char) : Bool :=
  c.isDigit || decide ('a' ≤ c ∧ c ≤ 'f') || decide ('A' ≤ c ∧ c ≤ 'F')

/-- Octal digit as accepted by Python `int(s, 8)`. -/
def isOctDigit (c : Char) : Bool := decide ('0' ≤ c ∧ c ≤ '7')

/-- Continuation of a digit run in Python `int()`: further digits, with a
single underscore allowed only between two digits (PEP 515). -/
def digitsURest (isdig : Char → Bool) : List Char → Bool
  | [] => true
  | c :: cs =>
    if c = '_' then
      match cs with
      | [] => false
      | c2 :: cs2 => isdig c2 && digitsURest isdig cs2
    else isdig c && digitsURest isdig cs

/-- A non-empty digit run in Python `int()`: starts with a digit, then
digits with single interspersed underscores. -/
def digitsU (isdig : Char → Bool) : List Char → Bool
  | [] => false
  | c :: cs => isdig c && digitsURest isdig cs

/-- Digit run directly after a `0x`/`0o` base prefix in Python `int()`: one
underscore may separate the prefix from the first digit. -/
def afterPrefixDigits (isdig : Char → Bool) (cs : List Char) : Bool :=
  match cs with
  | c :: rest => if c = '_' then digitsU isdig rest else digitsU isdig cs
  | [] => digitsU isdig cs

/-- Body of Python `int(s, base)` after sign removal, for the three bases the
source uses: an optional matching base prefix, then a digit run. -/
def pyIntBody (base : Nat) (cs : List Char) : Bool :=
  if base = 16 then
    match cs with
    | c0 :: x :: rest =>
      if c0 = '0' ∧ (x = 'x' ∨ x = 'X') then afterPrefixDigits isHexDigit rest
      else digitsU isHexDigit (c0 :: x :: rest)
    | _ => digitsU isHexDigit cs
  else if base = 8 then
    match cs with
    | c0 :: x :: rest =>
      if c0 = '0' ∧ (x = 'o' ∨ x = 'O') then afterPrefixDigits isOctDigit rest
      else digitsU isOctDigit (c0 :: x :: rest)
    | _ => digitsU isOctDigit cs
  else digitsU isDecDigit cs

/-- Removal of the optional single leading sign in Python `int()`. -/
def stripSign (cs : List Char) : List Char :=
  match cs with
  | [] => []
  | c :: rest => if c = '+' ∨ c = '-' then rest else c :: rest

/-- Whether Python `int(s, base)` succeeds: optional surrounding whitespace,
an optional single sign, then a digit body for the base. -/
def pyIntOk (base : Nat) (cs : List Char) : Bool :=
  pyIntBody base (stripSign (pyStrip cs))

/-- Whether the two-character sequence `a b` occurs in the list (Python's
substring test `ab in s`). -/
def hasSub2 (a b : Char) : List Char → Bool
  | x :: y :: rest => (decide (x = a ∧ y = b)) || hasSub2 a b (y :: rest)
  | _ => false

/-- Modelled from the spec: the base implied by standard numeric-prefix
notation — after the surrounding whitespace and the optional sign,
hexadecimal for a `0x`/`0X` prefix, octal for `0o`/`0O`, decimal
otherwise. -/
def specImpliedBase (cs : List Char) : Nat :=
  match stripSign (pyStrip cs) with
  | c0 :: x :: _ =>
    if c0 = '0' ∧ (x = 'x' ∨ x = 'X') then 16
    else if c0 = '0' ∧ (x = 'o' ∨ x = 'O') then 8
    else 10
  | _ => 10

/-- Source `is_ippcode_integer`: pick the base by searching `0x` / `0o` in
the lower-cased text, then try Python `int()` in that base. -/
def is_ippcode_integer (cs : List Char) : Bool :=
  let low := cs.map Char.toLower
  if hasSub2 '0' 'x' low then pyIntOk 16 cs
  else if hasSub2 '0' 'o' low then pyIntOk 8 cs
  else pyIntOk 10 cs

/-- First character of an IPPcode24 identifier:
regex class `[a-zA-Z_$&%*!?]`. -/
def isIdentStart (c : Char) : Bool :=
  c.isAlpha || ['_', '$', '&', '%', '*', '!', '?'].contains c

/-- Later character of an IPPcode24 identifier:
regex class `[a-zA-Z0-9_$&%*!?]`. -/
def isIdentCont (c : Char) : Bool :=
  c.isAlphanum || ['_', '$', '&', '%', '*', '!', '?'].contains c

/-- Full match of the variable regex
`^(LF|TF|GF)@([a-zA-Z_$&%*!?][a-zA-Z0-9_$&%*!?]*)$`. -/
def isVariableStr : List Char → Bool
  | f1 :: f2 :: '@' :: c :: rest =>
    decide ((f1 = 'L' ∨ f1 = 'T' ∨ f1 = 'G') ∧ f2 = 'F') && isIdentStart c &&
      rest.all isIdentCont
  | _ => false

/-- Source `parse_variable`: validate against the variable regex and tag the
argument `var`. -/
def parse_variable (s : String) : Except PErr Argument :=
  if isVariableStr s.data then .ok ⟨"var", s⟩
  else .error (sourceErr ("Proměnná ve špatném formátu: " ++ q s))

/-- A character admitted by the regex class `[^ \t\r\n\x00-\x1F#\\]` shared
by the string-literal and label grammars. -/
def stringCharOk (c : Char) : Bool :=
  !(decide (c = ' ' ∨ c = '\t' ∨ c = '\r' ∨ c = '\n' ∨ c.toNat ≤ 0x1f ∨
    c = '#' ∨ c = '\\'))

/-- Full match of `^([^ \t\r\n\x00-\x1F#\\]|\\[0-9]{3})*$`: a sequence of
plain admitted characters and backslash escapes of exactly three decimal
digits.  (The two alternatives are disjoint on their first character, so the
regex is equivalent to this deterministic scan.) -/
def stringValueOk : List Char → Bool
  | [] => true
  | c :: cs =>
    if c = '\\' then
      match cs with
      | d1 :: d2 :: d3 :: rest => d1.isDigit && d2.isDigit && d3.isDigit && stringValueOk rest
      | _ => false
    else stringCharOk c && stringValueOk cs

/-- Source `parse_label`: the same unit grammar as string literals, but
non-empty (`+` instead of `*`); tags the argument `lable` (sic, as in the
source). -/
def parse_label (s : String) : Except PErr Argument :=
  if stringValueOk s.data && !s.data.isEmpty then .ok ⟨"lable", s⟩
  else .error (sourceErr ("Návěstí ve špatném formátu: " ++ q s))

/-- Strip a literal prefix from a character list, returning the remainder
when the prefix matches. -/
def stripPre : List Char → List Char → Option (List Char)
  | [], cs => some cs
  | _ :: _, [] => none
  | p :: ps, c :: cs => if c = p then stripPre ps cs else none

/-- The anchored split performed by the regex `^(int|bool|string|nil)@(.*)$`
in `parse_literal`.  The four tag alternatives begin with distinct
characters, so the alternation is equivalent to trying each `TAG@` prefix in
turn. -/
def splitLiteral (cs : List Char) : Option (String × List Char) :=
  match stripPre "int@".data cs with
  | some rest => some ("int", rest)
  | none =>
    match stripPre "bool@".data cs with
    | some rest => some ("bool", rest)
    | none =>
      match stripPre "string@".data cs with
      | some rest => some ("string", rest)
      | none =>
        match stripPre "nil@".data cs with
        | some rest => some ("nil", rest)
        | none => none

/-- Source `parse_literal`: split `TYPE@VALUE`, then validate the value by
the per-type grammar; the produced argument carries the literal type name as
its tag and the raw value text. -/
def parse_literal (s : String) : Except PErr Argument :=
  match splitLiteral s.data with
  | none => .error (sourceErr ("Konstanta ve špatném formátu: " ++ q s))
  | some (typestr, value) =>
    if typestr == "int" && !is_ippcode_integer value then
      .error (sourceErr ("Celočíselná konstanta ve špatném formátu: " ++ q s))
    else if typestr == "bool" && !(value == "true".data || value == "false".data) then
      .error (sourceErr ("Booleanská konstanta ve špatném formátu: " ++ q s))
    else if typestr == "string" && !stringValueOk value then
      .error (sourceErr ("Řetězcová konstanta ve špatném formátu: " ++ q s))
    else if typestr == "nil" && !(value == "nil".data) then
      .error (sourceErr ("Nil konstanta ve špatném formátu: " ++ q s))
    else .ok ⟨typestr, String.mk value⟩

/-- Source `is_possibly_literal`: the token starts with one of the literal
type tags (the `@` is not required at this stage). -/
def is_possibly_literal (s : String) : Bool :=
  ["int", "bool", "string", "nil"].any (fun t => t.data.isPrefixOf s.data)

/-- Source `is_possibly_variable`: the token starts with a frame name. -/
def is_possibly_variable (s : String) : Bool :=
  ["TF", "LF", "GF"].any (fun t => t.data.isPrefixOf s.data)

/-- Source `parse_symbol`: prefix-directed choice between literal and
variable validation. -/
def parse_symbol (s : String) : Except PErr Argument :=
  if is_possibly_literal s then parse_literal s
  else if is_possibly_variable s then parse_variable s
  else .error (sourceErr ("Symbol ve špatném formátu: " ++ q s))

/-- Source `parse_type`: one of the three type names, tagged `type`. -/
def parse_type (s : String) : Except PErr Argument :=
  if s = "int" ∨ s = "string" ∨ s = "bool" then .ok ⟨"type", s⟩
  else .error (sourceErr ("neznámý typ: " ++ q s))

/-- Full match of the header regex
`^[^\S\r\n]*(\.IPPcode24)[^\S\r\n]*(#.*)?$`. -/
def isHeaderLine (line : String) : Bool :=
  let t := line.data.dropWhile isInlineWs
  if ".IPPcode24".data.isPrefixOf t then
    match (t.drop 10).dropWhile isInlineWs with
    | [] => true
    | c :: _ => c == '#'
  else false

/-- Full match of the blank-or-comment regex `^[^\S\r\n]*(#.*)?$`. -/
def isBlankOrCommentLine (line : String) : Bool :=
  match line.data.dropWhile isInlineWs with
  | [] => true
  | c :: _ => c == '#'

/-- Source `find_header`: index of the first header line, provided every
earlier line is blank or comment-only; the source's `-1` result is modelled
as `none`. -/
def find_header : List String → Option Nat
  | [] => none
  | l :: ls =>
    if isHeaderLine l then some 0
    else if isBlankOrCommentLine l then (find_header ls).map (· + 1)
    else none

/-- The opcodes of the five-way niladic case arm. -/
def nullaryOps : List String :=
  ["CREATEFRAME", "PUSHFRAME", "POPFRAME", "RETURN", "BREAK"]

/-- The opcodes taking a single label operand. -/
def labelOps : List String := ["CALL", "LABEL", "JUMP"]

/-- The opcodes taking a variable and a symbol. -/
def varSymbOps : List String := ["MOVE", "INT2CHAR", "STRLEN", "TYPE"]

/-- The opcodes taking a variable and two symbols. -/
def varSymbSymbOps : List String :=
  ["ADD", "SUB", "MUL", "IMUL", "DIV", "IDIV", "LT", "GT", "EQ", "AND", "OR",
   "NOT", "CONCAT", "GETCHAR", "SETCHAR", "STRI2INT"]

/-- The opcodes taking a single symbol operand. -/
def symbOps : List String := ["PUSHS", "WRITE", "DPRINT", "EXIT"]

/-- The opcodes taking a single variable operand. -/
def varOps : List String := ["POPS", "DEFVAR"]

/-- The opcodes taking a label and two symbols. -/
def labelSymbSymbOps : List String := ["JUMPIFEQ", "JUMPIFNEQ"]

/-- Source tuple `OPCODES`, duplicates included exactly as written. -/
def OPCODES : List String :=
  ["CREATEFRAME", "PUSHFRAME", "POPFRAME", "RETURN", "BREAK",
   "CALL", "LABEL", "JUMP", "MOVE", "INT2CHAR", "STRLEN", "TYPE",
   "MOVE", "INT2CHAR", "STRLEN", "TYPE", "ADD", "SUB", "MUL",
   "IMUL", "DIV", "IDIV", "LT", "GT", "EQ", "AND", "OR", "NOT",
   "CONCAT", "GETCHAR", "SETCHAR", "STRI2INT", "PUSHS", "WRITE",
   "DPRINT", "EXIT", "POPS", "DEFVAR", "READ", "JUMPIFEQ", "JUMPIFNEQ"]

/-- Number of tokens (opcode included) each recognised opcode's case arm
matches; derived from the arities of the source's `match` arms. -/
def requiredTokens (op : String) : Nat :=
  if op ∈ nullaryOps then 1
  else if op ∈ labelOps then 2
  else if op ∈ varSymbOps then 3
  else if op ∈ varSymbSymbOps then 4
  else if op ∈ symbOps then 2
  else if op ∈ varOps then 2
  else if op = "READ" then 3
  else if op ∈ labelSymbSymbOps then 4
  else 0

/-- The `case _` fallback of the source's `match tokens`: an unrecognised
first token is an exit-22 error, a recognised one (hence a wrong token
count) an exit-23 syntax error. -/
def dispatchFallback (tokens : List String) : PErr :=
  match tokens with
  | [] => sourceErr "Špatný počet argumentů"
  | t0 :: _ =>
    if t0 ∈ OPCODES then sourceErr ("Špatný počet argumentů: " ++ q t0)
    else ⟨"Neznámý nebo chybný operační kód: " ++ q t0, 22⟩

/-- One iteration of the `match tokens` statement in `parse_program`:
`none` for an empty token list (the `continue` arm), otherwise the built
instruction; exceptions raised by the operand validators propagate. -/
def parseTokens (order : Nat) (tokens : List String) : Except PErr (Option Instruction) :=
  match tokens with
  | [] => .ok none
  | [op] =>
    if op ∈ nullaryOps then .ok (some ⟨order, op, []⟩)
    else .error (dispatchFallback tokens)
  | [op, a] =>
    if op ∈ labelOps then
      match parse_label a with
      | .error e => .error e
      | .ok arg => .ok (some ⟨order, op, [arg]⟩)
    else if op ∈ symbOps then
      match parse_symbol a with
      | .error e => .error e
      | .ok arg => .ok (some ⟨order, op, [arg]⟩)
    else if op ∈ varOps then
      match parse_variable a with
      | .error e => .error e
      | .ok arg => .ok (some ⟨order, op, [arg]⟩)
    else .error (dispatchFallback tokens)
  | [op, a, b] =>
    if op ∈ varSymbOps then
      match parse_variable a with
      | .error e => .error e
      | .ok v =>
        match parse_symbol b with
        | .error e => .error e
        | .ok sy => .ok (some ⟨order, op, [v, sy]⟩)
    else if op = "READ" then
      match parse_variable a with
      | .error e => .error e
      | .ok v =>
        match parse_type b with
        | .error e => .error e
        | .ok t => .ok (some ⟨order, op, [v, t]⟩)
    else .error (dispatchFallback tokens)
  | [op, a, b, c] =>
    if op ∈ varSymbSymbOps then
      match parse_variable a with
      | .error e => .error e
      | .ok v =>
        match parse_symbol b with
        | .error e => .error e
        | .ok s1 =>
          match parse_symbol c with
          | .error e => .error e
          | .ok s2 => .ok (some ⟨order, op, [v, s1, s2]⟩)
    else if op ∈ labelSymbSymbOps then
      match parse_label a with
      | .error e => .error e
      | .ok l =>
        match parse_symbol b with
        | .error e => .error e
        | .ok s1 =>
          match parse_symbol c with
          | .error e => .error e
          | .ok s2 => .ok (some ⟨order, op, [l, s1, s2]⟩)
    else .error (dispatchFallback tokens)
  | _ => .error (dispatchFallback tokens)

/-- The instruction loop of `parse_program` viewed as a trace: the
instructions yielded before the first raised error, paired with that error
when one occurs.  The order counter advances only on a yield, exactly as in
the source (`continue` skips the increment, an exception aborts). -/
def parseLinesT : Nat → List String → List Instruction × Option PErr
  | _, [] => ([], none)
  | order, l :: ls =>
    match parseTokens order (tokenize_line l) with
    | .error e => ([], some e)
    | .ok none => parseLinesT order ls
    | .ok (some i) =>
      let r := parseLinesT (order + 1) ls
      (i :: r.1, r.2)

/-- The exit-21 header error raised by `parse_program`. -/
def headerErr : PErr := ⟨"Chybná nebo chybějící hlavička", 21⟩

/-- Source `parse_program` as the trace of the generator it returns: header
scan, then the per-line loop on the lines after the header. -/
def parse_program (lines : List String) : List Instruction × Option PErr :=
  match find_header lines with
  | none => ([], some headerErr)
  | some idx => parseLinesT 1 (lines.drop (idx + 1))

/-- Source `instructions_to_xml`: consuming the instruction generator while
appending one element per instruction to the document.  A pending error in
the trace is raised during that consumption, before any document is
returned; on success the finished document holds exactly the yielded
instructions. -/
def instructions_to_xml (tr : List Instruction × Option PErr) : Except PErr (List Instruction) :=
  match tr.2 with
  | some e => .error e
  | none => .ok tr.1

/-- Character expansion of minidom's `_write_data` escaping. -/
def escChar (c : Char) : List Char :=
  if c = '&' then "&amp;".data
  else if c = '<' then "&lt;".data
  else if c = '"' then "&quot;".data
  else if c = '>' then "&gt;".data
  else [c]

/-- minidom `_write_data`: escape `&`, `<`, `"` and `>`. -/
def escapeXml (s : String) : String :=
  String.mk (s.data.foldr (fun c acc => escChar c ++ acc) [])

/-- One serialized attribute, escaped as minidom writes it. -/
def renderAttr (n v : String) : String :=
  " " ++ n ++ "=" ++ q (escapeXml v)

/-- The `addindent` argument passed to `Document.writexml` in `main`:
four spaces. -/
def addindent : String := "    "

/-- One `argN` element as minidom renders it: a single text child, hence the
inline `<argN type=tag>text</argN>` form, indented, newline-terminated. -/
def renderArg (indent : String) (idx : Nat) (a : Argument) : String :=
  indent ++ "<arg" ++ toString idx ++ renderAttr "type" a.ipptype ++ ">" ++
    escapeXml a.text ++ "</arg" ++ toString idx ++ ">" ++ "\n"

/-- The `argN` children of one instruction element, numbered from `idx`
(the source enumerates from 1). -/
def renderArgs (indent : String) (idx : Nat) : List Argument → String
  | [] => ""
  | a :: rest => renderArg indent idx a ++ renderArgs indent (idx + 1) rest

/-- One `instruction` element as minidom renders it: self-closing without
children, otherwise open tag, children one level deeper, closing tag. -/
def renderInstruction (indent : String) (i : Instruction) : String :=
  match i.args with
  | [] => indent ++ "<instruction" ++ renderAttr "order" (toString i.order) ++
      renderAttr "opcode" i.opcode ++ "/>" ++ "\n"
  | _ => indent ++ "<instruction" ++ renderAttr "order" (toString i.order) ++
      renderAttr "opcode" i.opcode ++ ">" ++ "\n" ++
      renderArgs (indent ++ addindent) 1 i.args ++
      indent ++ "</instruction>" ++ "\n"

/-- Concatenation of the serialized children, in order (the `for` loop over
`childNodes`). -/
def concatMapStr {α : Type} (f : α → String) : List α → String
  | [] => ""
  | x :: xs => f x ++ concatMapStr f xs

/-- The `program` root element as minidom renders it. -/
def renderProgram (instrs : List Instruction) : String :=
  match instrs with
  | [] => "<program" ++ renderAttr "language" "IPPcode24" ++ "/>" ++ "\n"
  | _ => "<program" ++ renderAttr "language" "IPPcode24" ++ ">" ++ "\n" ++
      concatMapStr (renderInstruction addindent) instrs ++
      "</program>" ++ "\n"

/-- The XML declaration `Document.writexml` emits for `encoding='utf-8'`. -/
def xmlDecl : String :=
  "<?xml version=" ++ q "1.0" ++ " encoding=" ++ q "utf-8" ++ "?>"

/-- `document.writexml(stdout, addindent, newl, encoding)` as the string it
writes: declaration, then the root element at indent zero. -/
def renderDocument (instrs : List Instruction) : String :=
  xmlDecl ++ "\n" ++ renderProgram instrs

/-- The usage text printed by `main` for `--help`. -/
def HELP : String :=
  "Načte ze standardního vstupu zdrojový kód v IPPcode24, " ++
  "zkontroluje lexikální a sytaktickou správnost kódu a " ++
  "vypíše na standardní výstup XML reprezentaci programu."

/-- What `main` decides to do from its command-line arguments. -/
inductive CliAction where
  | help
  | usageError
  | runInput (files : List String)
deriving DecidableEq, Repr

/-- The argument dispatch at the top of `main`, over `argv[1:]`: exactly
`--help` prints usage; more than one argument raises the exit-10 usage
error; otherwise `fileinput` reads the named files, or standard input when
there are none. -/
def cliAction (args : List String) : CliAction :=
  if args = ["--help"] then .help
  else if args.length > 1 then .usageError
  else .runInput args

/-- The parse-and-serialize path of `main` on the input's lines: build the
document by consuming the generator, and only then write it to standard
output.  Returns the text written to standard output and the process exit
code; an error writes nothing. -/
def runPipeline (lines : List String) : String × Nat :=
  match instructions_to_xml (parse_program lines) with
  | .error e => ("", e.code)
  | .ok instrs => (renderDocument instrs, 0)

/-- `main` plus the `__main__` exception handler, as a function from the
argument vector tail and the input lines to (standard output, exit code). -/
def mainRun (args : List String) (inputLines : List String) : String × Nat :=
  match cliAction args with
  | .help => (HELP ++ "\n", 0)
  | .usageError => ("", 10)
  | .runInput _ => runPipeline inputLines

/-- Exit code of a failed computation, if any. -/
def exceptCode {α : Type} : Except PErr α → Option Nat
  | .error e => some e.code
  | .ok _ => none

/-- Raw whitespace characters as the specification lists them for string
and label values. -/
def isRawWhitespace (c : Char) : Bool :=
  c == ' ' || c == '\t' || c == '\r' || c == '\n'

/-- ASCII control characters. -/
def isAsciiControl (c : Char) : Bool := decide (c.toNat < 0x20)

/-- Modelled from the spec: a valid string-literal value is a sequence of
characters excluding raw whitespace, control characters, `#` and unescaped
backslash, where every backslash is followed by exactly three decimal
digits. -/
inductive SpecStringSeq : List Char → Prop where
  | nil : SpecStringSeq []
  | plain (c : Char) (cs : List Char) :
      isRawWhitespace c = false → isAsciiControl c = false → c ≠ '#' → c ≠ '\\' →
      SpecStringSeq cs → SpecStringSeq (c :: cs)
  | esc (d1 d2 d3 : Char) (cs : List Char) :
      d1.isDigit = true → d2.isDigit = true → d3.isDigit = true →
      SpecStringSeq cs → SpecStringSeq ('\\' :: d1 :: d2 :: d3 :: cs)

/-- Modelled from the spec: one serialized argument line, two levels deep. -/
def specArgLine (idx : Nat) (a : Argument) : String :=
  "        <arg" ++ toString idx ++ " type=" ++ q (escapeXml a.ipptype) ++ ">" ++
    escapeXml a.text ++ "</arg" ++ toString idx ++ ">"

/-- Modelled from the spec: the argument lines of one instruction, numbered
from `idx`. -/
def specArgLines (idx : Nat) : List Argument → List String
  | [] => []
  | a :: rest => specArgLine idx a :: specArgLines (idx + 1) rest

/-- Modelled from the spec: the serialized lines of one instruction element,
one level deep (four spaces per level). -/
def specInstrLines (i : Instruction) : List String :=
  match i.args with
  | [] => ["    <instruction order=" ++ q (escapeXml (toString i.order)) ++ " opcode=" ++
      q (escapeXml i.opcode) ++ "/>"]
  | _ => ("    <instruction order=" ++ q (escapeXml (toString i.order)) ++ " opcode=" ++
      q (escapeXml i.opcode) ++ ">") ::
      specArgLines 1 i.args ++ ["    </instruction>"]

/-- Modelled from the spec: the serialized document as a list of lines — the
XML declaration, the `program` root with the fixed language attribute, one
instruction element per instruction. -/
def specDocLines (instrs : List Instruction) : List String :=
  match instrs with
  | [] => [xmlDecl, "<program language=" ++ q "IPPcode24" ++ "/>"]
  | _ => [xmlDecl, "<program language=" ++ q "IPPcode24" ++ ">"] ++
      (instrs.map specInstrLines).foldr (· ++ ·) [] ++ ["</program>"]

/-- Join lines, terminating every line (hence every element) with a
newline. -/
def joinLines : List String → String
  | [] => ""
  | l :: ls => l ++ "\n" ++ joinLines ls

/-- Elements of a list accepted by `digitsURest` are digits or
underscores. -/
theorem digitsURest_all (isdig : Char → Bool) :
    ∀ n (l : List Char), l.length ≤ n → digitsURest isdig l = true →
      ∀ c ∈ l, isdig c = true ∨ c = '_' := by
  intro n
  induction n with
  | zero =>
    intro l hlen _ c hc
    have hnil : l = [] := List.eq_nil_of_length_eq_zero (Nat.le_zero.mp hlen)
    subst hnil
    simp at hc
  | succ n ih =>
    intro l hlen h c hc
    rcases l with _ | ⟨c1, cs⟩
    · simp at hc
    · rw [digitsURest.eq_def] at h
      dsimp only at h
      by_cases h1 : c1 = '_'
      · rw [if_pos h1] at h
        rcases cs with _ | ⟨c2, cs2⟩
        · simp at h
        · simp only [Bool.and_eq_true] at h
          simp only [List.mem_cons] at hc
          rcases hc with rfl | rfl | hc
          · exact Or.inr h1
          · exact Or.inl h.1
          · refine ih cs2 ?_ h.2 c hc
            simp only [List.length_cons] at hlen
            omega
      · rw [if_neg h1] at h
        simp only [Bool.and_eq_true] at h
        simp only [List.mem_cons] at hc
        rcases hc with rfl | hc
        · exact Or.inl h.1
        · refine ih cs ?_ h.2 c hc
          simp only [List.length_cons] at hlen
          omega

/-- Elements of a non-empty digit run are digits or underscores. -/
theorem digitsU_all (isdig : Char → Bool) (l : List Char) (h : digitsU isdig l = true) :
    ∀ c ∈ l, isdig c = true ∨ c = '_' := by
  rcases l with _ | ⟨c1, cs⟩
  · intro c hc; simp at hc
  · intro c hc
    simp only [digitsU, Bool.and_eq_true] at h
    simp only [List.mem_cons] at hc
    rcases hc with rfl | hc
    · exact Or.inl h.1
    · exact digitsURest_all isdig cs.length cs le_rfl h.2 c hc

/-- Elements of a digit run after a base prefix are digits or
underscores. -/
theorem afterPrefixDigits_all (isdig : Char → Bool) (l : List Char)
    (h : afterPrefixDigits isdig l = true) :
    ∀ c ∈ l, isdig c = true ∨ c = '_' := by
  rcases l with _ | ⟨c1, cs⟩
  · intro c hc; simp at hc
  · unfold afterPrefixDigits at h
    dsimp only at h
    by_cases h1 : c1 = '_'
    · rw [if_pos h1] at h
      intro c hc
      simp only [List.mem_cons] at hc
      rcases hc with rfl | hc
      · exact Or.inr h1
      · exact digitsU_all isdig cs h c hc
    · rw [if_neg h1] at h
      exact digitsU_all isdig _ h

/-- Characters of a list accepted as the body of a base-8 integer: octal
digits, underscores and the prefix letters. -/
theorem pyIntBody8_chars (u : List Char) (h : pyIntBody 8 u = true) :
    ∀ c ∈ u, isOctDigit c = true ∨ c = '_' ∨ c = 'o' ∨ c = 'O' := by
  unfold pyIntBody at h
  rw [if_neg (by decide), if_pos rfl] at h
  rcases u with _ | ⟨c0, _ | ⟨c1, rest⟩⟩
  · intro c hc; simp at hc
  · intro c hc
    dsimp only at h
    rcases digitsU_all isOctDigit [c0] h c hc with h' | h'
    · exact Or.inl h'
    · exact Or.inr (Or.inl h')
  · dsimp only at h
    by_cases hpre : c0 = '0' ∧ (c1 = 'o' ∨ c1 = 'O')
    · rw [if_pos hpre] at h
      intro c hc
      simp only [List.mem_cons] at hc
      rcases hc with rfl | rfl | hc
      · refine Or.inl ?_
        rw [hpre.1]
        decide
      · rcases hpre.2 with h' | h'
        · exact Or.inr (Or.inr (Or.inl h'))
        · exact Or.inr (Or.inr (Or.inr h'))
      · rcases afterPrefixDigits_all isOctDigit rest h c hc with h' | h'
        · exact Or.inl h'
        · exact Or.inr (Or.inl h')
    · rw [if_neg hpre] at h
      intro c hc
      rcases digitsU_all isOctDigit _ h c hc with h' | h'
      · exact Or.inl h'
      · exact Or.inr (Or.inl h')

/-- Characters of a list accepted as the body of a base-10 integer: decimal
digits and underscores. -/
theorem pyIntBody10_chars (u : List Char) (h : pyIntBody 10 u = true) :
    ∀ c ∈ u, isDecDigit c = true ∨ c = '_' := by
  unfold pyIntBody at h
  rw [if_neg (by decide), if_neg (by decide)] at h
  exact digitsU_all isDecDigit u h

/-- A base-16 body either starts with the hexadecimal prefix (so the
prefix-implied base is 16) or consists of hexadecimal digits and
underscores only. -/
theorem pyIntBody16_refined (cs : List Char)
    (h : pyIntBody 16 (stripSign (pyStrip cs)) = true) :
    specImpliedBase cs = 16 ∨
      ∀ c ∈ stripSign (pyStrip cs), isHexDigit c = true ∨ c = '_' := by
  unfold pyIntBody at h
  rw [if_pos rfl] at h
  revert h
  generalize hu : stripSign (pyStrip cs) = u
  rcases u with _ | ⟨c0, _ | ⟨c1, rest⟩⟩ <;> intro h
  · right; intro c hc; simp at hc
  · right
    intro c hc
    dsimp only at h
    rcases digitsU_all isHexDigit [c0] h c hc with h' | h'
    · exact Or.inl h'
    · exact Or.inr h'
  · dsimp only at h
    by_cases hpre : c0 = '0' ∧ (c1 = 'x' ∨ c1 = 'X')
    · left
      unfold specImpliedBase
      rw [hu]
      dsimp only
      rw [if_pos hpre]
    · rw [if_neg hpre] at h
      right
      intro c hc
      rcases digitsU_all isHexDigit _ h c hc with h' | h'
      · exact Or.inl h'
      · exact Or.inr h'

/-- A base-8 body either starts with the octal prefix (so the prefix-implied
base is 8) or consists of octal digits and underscores only. -/
theorem pyIntBody8_refined (cs : List Char)
    (h : pyIntBody 8 (stripSign (pyStrip cs)) = true) :
    specImpliedBase cs = 8 ∨
      ∀ c ∈ stripSign (pyStrip cs), isOctDigit c = true ∨ c = '_' := by
  unfold pyIntBody at h
  rw [if_neg (by decide), if_pos rfl] at h
  revert h
  generalize hu : stripSign (pyStrip cs) = u
  rcases u with _ | ⟨c0, _ | ⟨c1, rest⟩⟩ <;> intro h
  · right; intro c hc; simp at hc
  · right
    intro c hc
    dsimp only at h
    rcases digitsU_all isOctDigit [c0] h c hc with h' | h'
    · exact Or.inl h'
    · exact Or.inr h'
  · dsimp only at h
    by_cases hpre : c0 = '0' ∧ (c1 = 'o' ∨ c1 = 'O')
    · left
      unfold specImpliedBase
      rw [hu]
      dsimp only
      rw [if_neg ?hx, if_pos hpre]
      case hx =>
        rintro ⟨_, hcx⟩
        rcases hpre.2 with h' | h' <;> rcases hcx with h'' | h'' <;>
          (subst h'; exact absurd h'' (by decide))
    · rw [if_neg hpre] at h
      right
      intro c hc
      rcases digitsU_all isOctDigit _ h c hc with h' | h'
      · exact Or.inl h'
      · exact Or.inr h'

/-- Decomposition of the removal of the optional sign. -/
theorem stripSign_decomp (l : List Char) :
    ∃ sgn, (sgn = [] ∨ sgn = ['+'] ∨ sgn = ['-']) ∧ l = sgn ++ stripSign l := by
  rcases l with _ | ⟨c, rest⟩
  · exact ⟨[], Or.inl rfl, rfl⟩
  · by_cases hc : c = '+' ∨ c = '-'
    · refine ⟨[c], ?_, ?_⟩
      · rcases hc with h | h
        · exact Or.inr (Or.inl (by rw [h]))
        · exact Or.inr (Or.inr (by rw [h]))
      · simp [stripSign, hc]
    · exact ⟨[], Or.inl rfl, by simp [stripSign, hc]⟩

/-- Decomposition of Python whitespace stripping: the original list is the
stripped core surrounded by whitespace. -/
theorem pyStrip_decomp (cs : List Char) :
    ∃ w1 w2, cs = w1 ++ pyStrip cs ++ w2 ∧
      (∀ c ∈ w1, isPySpace c = true) ∧ (∀ c ∈ w2, isPySpace c = true) := by
  refine ⟨cs.takeWhile isPySpace,
    ((cs.dropWhile isPySpace).reverse.takeWhile isPySpace).reverse, ?_, ?_, ?_⟩
  · have h1 := (List.takeWhile_append_dropWhile isPySpace cs).symm
    have h2 := (List.takeWhile_append_dropWhile isPySpace
      (cs.dropWhile isPySpace).reverse).symm
    calc cs = cs.takeWhile isPySpace ++ cs.dropWhile isPySpace := h1
    _ = cs.takeWhile isPySpace ++ ((cs.dropWhile isPySpace).reverse).reverse := by
        rw [List.reverse_reverse]
    _ = cs.takeWhile isPySpace ++
        ((cs.dropWhile isPySpace).reverse.takeWhile isPySpace ++
          (cs.dropWhile isPySpace).reverse.dropWhile isPySpace).reverse := by
        rw [← h2]
    _ = cs.takeWhile isPySpace ++
        (((cs.dropWhile isPySpace).reverse.dropWhile isPySpace).reverse ++
          ((cs.dropWhile isPySpace).reverse.takeWhile isPySpace).reverse) := by
        rw [List.reverse_append]
    _ = cs.takeWhile isPySpace ++ pyStrip cs ++
        ((cs.dropWhile isPySpace).reverse.takeWhile isPySpace).reverse := by
        rw [pyStrip, List.append_assoc]
  · intro c hc
    exact List.mem_takeWhile_imp hc
  · intro c hc
    rw [List.mem_reverse] at hc
    exact List.mem_takeWhile_imp hc

/-- Every character of the input sits in the leading whitespace, the sign,
the numeral body, or the trailing whitespace. -/
theorem mem_pyIntRegions (cs : List Char) (c : Char) (hc : c ∈ cs) :
    isPySpace c = true ∨ c = '+' ∨ c = '-' ∨ c ∈ stripSign (pyStrip cs) := by
  obtain ⟨w1, w2, hdec, hw1, hw2⟩ := pyStrip_decomp cs
  obtain ⟨sgn, hsgn, hss⟩ := stripSign_decomp (pyStrip cs)
  rw [hdec] at hc
  rw [hss] at hc
  simp only [List.append_assoc, List.mem_append] at hc
  rcases hc with hc | hc | hc | hc
  · exact Or.inl (hw1 c hc)
  · rcases hsgn with h' | h' | h'
    · subst h'; simp at hc
    · subst h'
      simp only [List.mem_singleton] at hc
      exact Or.inr (Or.inl hc)
    · subst h'
      simp only [List.mem_singleton] at hc
      exact Or.inr (Or.inr (Or.inl hc))
  · exact Or.inr (Or.inr (Or.inr hc))
  · exact Or.inl (hw2 c hc)

/-- A two-character pattern occurs in a mapped list exactly when the
original list has two adjacent elements mapping to it. -/
theorem hasSub2_map_iff (a b : Char) (f : Char → Char) :
    ∀ l : List Char, (hasSub2 a b (l.map f) = true ↔
      ∃ l1 x y l2, l = l1 ++ x :: y :: l2 ∧ f x = a ∧ f y = b) := by
  intro l
  induction l with
  | nil =>
    simp only [List.map_nil]
    constructor
    · intro h; simp [hasSub2] at h
    · rintro ⟨l1, x, y, l2, hl, _, _⟩
      have := congrArg List.length hl
      simp at this
      omega
  | cons c l ih =>
    rcases l with _ | ⟨c2, l2⟩
    · constructor
      · intro h; simp [hasSub2] at h
      · rintro ⟨l1, x, y, l2, hl, _, _⟩
        have := congrArg List.length hl
        simp at this
        omega
    · simp only [List.map_cons]
      constructor
      · intro h
        simp only [hasSub2, Bool.or_eq_true, decide_eq_true_eq] at h
        rcases h with ⟨h1, h2⟩ | h
        · exact ⟨[], c, c2, l2, rfl, h1, h2⟩
        · rw [← List.map_cons] at h
          obtain ⟨l1, x, y, l2a, hl, hfx, hfy⟩ := ih.mp h
          exact ⟨c :: l1, x, y, l2a, by rw [List.cons_append, ← hl], hfx, hfy⟩
      · rintro ⟨l1, x, y, l2a, hl, hfx, hfy⟩
        simp only [hasSub2, Bool.or_eq_true, decide_eq_true_eq]
        rcases l1 with _ | ⟨z, l1⟩
        · simp only [List.nil_append] at hl
          injection hl with h1 hrest
          injection hrest with h2 hrest2
          left
          rw [h1, h2]
          exact ⟨hfx, hfy⟩
        · right
          simp only [List.cons_append] at hl
          injection hl with h1 hrest
          rw [← List.map_cons]
          exact ih.mpr ⟨l1, x, y, l2a, hrest, hfx, hfy⟩

/-- A character lower-casing to `x` is `x` or `X`. -/
theorem toLower_eq_x (c : Char) (h : c.toLower = 'x') : c = 'x' ∨ c = 'X' := by
  have hc : Char.ofNat c.toNat = c := Char.ofNat_toNat c
  simp only [Char.toLower] at h
  split at h
  · rename_i hu
    obtain ⟨h1, h2⟩ := hu
    right
    have h88 : c.toNat = 88 := by
      obtain ⟨n, hn⟩ : ∃ n, c.toNat = n := ⟨c.toNat, rfl⟩
      rw [hn] at h1 h2 ⊢
      rw [hn] at h
      interval_cases n
      all_goals try rfl
      all_goals exact absurd h (by decide)
    rw [← hc, h88]
  · exact Or.inl h

/-- A character lower-casing to `o` is `o` or `O`. -/
theorem toLower_eq_o (c : Char) (h : c.toLower = 'o') : c = 'o' ∨ c = 'O' := by
  have hc : Char.ofNat c.toNat = c := Char.ofNat_toNat c
  simp only [Char.toLower] at h
  split at h
  · rename_i hu
    obtain ⟨h1, h2⟩ := hu
    right
    have h79 : c.toNat = 79 := by
      obtain ⟨n, hn⟩ : ∃ n, c.toNat = n := ⟨c.toNat, rfl⟩
      rw [hn] at h1 h2 ⊢
      rw [hn] at h
      interval_cases n
      all_goals try rfl
      all_goals exact absurd h (by decide)
    rw [← hc, h79]
  · exact Or.inl h

/-- The prefix-implied base is always 16, 8 or 10. -/
theorem specImpliedBase_cases (cs : List Char) :
    specImpliedBase cs = 16 ∨ specImpliedBase cs = 8 ∨ specImpliedBase cs = 10 := by
  unfold specImpliedBase
  generalize stripSign (pyStrip cs) = u
  rcases u with _ | ⟨c0, _ | ⟨c1, rest⟩⟩
  · simp
  · simp
  · dsimp only
    split
    · exact Or.inl rfl
    · split
      · exact Or.inr (Or.inl rfl)
      · exact Or.inr (Or.inr rfl)

/-- A prefix-implied base of 16 forces the `0x` pair to occur in the
lower-cased input. -/
theorem specBase16_hasSub (cs : List Char) (h : specImpliedBase cs = 16) :
    hasSub2 '0' 'x' (cs.map Char.toLower) = true := by
  obtain ⟨w1, w2, hdec, _, _⟩ := pyStrip_decomp cs
  obtain ⟨sgn, hsgn, hss⟩ := stripSign_decomp (pyStrip cs)
  unfold specImpliedBase at h
  revert h
  generalize hu : stripSign (pyStrip cs) = u
  rcases u with _ | ⟨c0, _ | ⟨c1, rest⟩⟩ <;> intro h
  · simp at h
  · simp at h
  · dsimp only at h
    rw [hu] at hss
    by_cases hpre : c0 = '0' ∧ (c1 = 'x' ∨ c1 = 'X')
    · apply (hasSub2_map_iff '0' 'x' Char.toLower cs).mpr
      obtain ⟨h0, hx⟩ := hpre
      refine ⟨w1 ++ sgn, c0, c1, rest ++ w2, ?_, ?_, ?_⟩
      · rw [hdec, hss]
        simp [List.append_assoc]
      · rw [h0]; decide
      · rcases hx with h' | h' <;> rw [h'] <;> decide
    · rw [if_neg hpre] at h
      split at h <;> simp at h

/-- A prefix-implied base of 8 forces the `0o` pair to occur in the
lower-cased input. -/
theorem specBase8_hasSub (cs : List Char) (h : specImpliedBase cs = 8) :
    hasSub2 '0' 'o' (cs.map Char.toLower) = true := by
  obtain ⟨w1, w2, hdec, _, _⟩ := pyStrip_decomp cs
  obtain ⟨sgn, hsgn, hss⟩ := stripSign_decomp (pyStrip cs)
  unfold specImpliedBase at h
  revert h
  generalize hu : stripSign (pyStrip cs) = u
  rcases u with _ | ⟨c0, _ | ⟨c1, rest⟩⟩ <;> intro h
  · simp at h
  · simp at h
  · dsimp only at h
    rw [hu] at hss
    by_cases hpre16 : c0 = '0' ∧ (c1 = 'x' ∨ c1 = 'X')
    · rw [if_pos hpre16] at h
      simp at h
    · rw [if_neg hpre16] at h
      by_cases hpre : c0 = '0' ∧ (c1 = 'o' ∨ c1 = 'O')
      · apply (hasSub2_map_iff '0' 'o' Char.toLower cs).mpr
        obtain ⟨h0, hx⟩ := hpre
        refine ⟨w1 ++ sgn, c0, c1, rest ++ w2, ?_, ?_, ?_⟩
        · rw [hdec, hss]
          simp [List.append_assoc]
        · rw [h0]; decide
        · rcases hx with h' | h' <;> rw [h'] <;> decide
      · rw [if_neg hpre] at h
        simp at h

/-- The code's base selection by `0x`/`0o` substring search coincides with
the specification's prefix-implied base on every input. -/
theorem is_ippcode_integer_eq_specBase (cs : List Char) :
    is_ippcode_integer cs = pyIntOk (specImpliedBase cs) cs := by
  simp only [is_ippcode_integer]
  by_cases hx : hasSub2 '0' 'x' (cs.map Char.toLower) = true
  · rw [if_pos hx]
    obtain ⟨l1, x0, xx, l2, hsp, hf0, hfx⟩ := (hasSub2_map_iff '0' 'x' Char.toLower cs).mp hx
    have hmem : xx ∈ cs := by rw [hsp]; simp
    have hxx : xx = 'x' ∨ xx = 'X' := toLower_eq_x xx hfx
    have h16false : specImpliedBase cs ≠ 16 → pyIntOk 16 cs = false := by
      intro hb
      cases hpy : pyIntOk 16 cs
      · rfl
      · exfalso
        have hbody : pyIntBody 16 (stripSign (pyStrip cs)) = true := hpy
        rcases pyIntBody16_refined cs hbody with hspec | hall
        · exact hb hspec
        · rcases mem_pyIntRegions cs xx hmem with hws | h' | h' | hmu
          · rcases hxx with h | h <;> subst h <;> exact absurd hws (by decide)
          · rcases hxx with h | h <;> subst h <;> exact absurd h' (by decide)
          · rcases hxx with h | h <;> subst h <;> exact absurd h' (by decide)
          · have hch := hall xx hmu
            rcases hxx with h | h <;> subst h <;> revert hch <;> decide
    rcases specImpliedBase_cases cs with hb | hb | hb
    · rw [hb]
    · rw [hb]
      have h8 : pyIntOk 8 cs = false := by
        cases hpy : pyIntOk 8 cs
        · rfl
        · exfalso
          have hbody : pyIntBody 8 (stripSign (pyStrip cs)) = true := hpy
          rcases mem_pyIntRegions cs xx hmem with hws | h' | h' | hmu
          · rcases hxx with h | h <;> subst h <;> exact absurd hws (by decide)
          · rcases hxx with h | h <;> subst h <;> exact absurd h' (by decide)
          · rcases hxx with h | h <;> subst h <;> exact absurd h' (by decide)
          · have hch := pyIntBody8_chars _ hbody xx hmu
            rcases hxx with h | h <;> subst h <;> revert hch <;> decide
      rw [h16false (by rw [hb]; decide), h8]
    · rw [hb]
      have h10 : pyIntOk 10 cs = false := by
        cases hpy : pyIntOk 10 cs
        · rfl
        · exfalso
          have hbody : pyIntBody 10 (stripSign (pyStrip cs)) = true := hpy
          rcases mem_pyIntRegions cs xx hmem with hws | h' | h' | hmu
          · rcases hxx with h | h <;> subst h <;> exact absurd hws (by decide)
          · rcases hxx with h | h <;> subst h <;> exact absurd h' (by decide)
          · rcases hxx with h | h <;> subst h <;> exact absurd h' (by decide)
          · have hch := pyIntBody10_chars _ hbody xx hmu
            rcases hxx with h | h <;> subst h <;> revert hch <;> decide
      rw [h16false (by rw [hb]; decide), h10]
  · rw [if_neg hx]
    by_cases ho : hasSub2 '0' 'o' (cs.map Char.toLower) = true
    · rw [if_pos ho]
      obtain ⟨l1, o0, oo, l2, hsp, hf0, hfo⟩ := (hasSub2_map_iff '0' 'o' Char.toLower cs).mp ho
      have hmem : oo ∈ cs := by rw [hsp]; simp
      have hoo : oo = 'o' ∨ oo = 'O' := toLower_eq_o oo hfo
      rcases specImpliedBase_cases cs with hb | hb | hb
      · exact absurd (specBase16_hasSub cs hb) hx
      · rw [hb]
      · rw [hb]
        have h8 : pyIntOk 8 cs = false := by
          cases hpy : pyIntOk 8 cs
          · rfl
          · exfalso
            have hbody : pyIntBody 8 (stripSign (pyStrip cs)) = true := hpy
            rcases pyIntBody8_refined cs hbody with hspec | hall
            · rw [hspec] at hb
              exact absurd hb (by decide)
            · rcases mem_pyIntRegions cs oo hmem with hws | h' | h' | hmu
              · rcases hoo with h | h <;> subst h <;> exact absurd hws (by decide)
              · rcases hoo with h | h <;> subst h <;> exact absurd h' (by decide)
              · rcases hoo with h | h <;> subst h <;> exact absurd h' (by decide)
              · have hch := hall oo hmu
                rcases hoo with h | h <;> subst h <;> revert hch <;> decide
        have h10 : pyIntOk 10 cs = false := by
          cases hpy : pyIntOk 10 cs
          · rfl
          · exfalso
            have hbody : pyIntBody 10 (stripSign (pyStrip cs)) = true := hpy
            rcases mem_pyIntRegions cs oo hmem with hws | h' | h' | hmu
            · rcases hoo with h | h <;> subst h <;> exact absurd hws (by decide)
            · rcases hoo with h | h <;> subst h <;> exact absurd h' (by decide)
            · rcases hoo with h | h <;> subst h <;> exact absurd h' (by decide)
            · have hch := pyIntBody10_chars _ hbody oo hmu
              rcases hoo with h | h <;> subst h <;> revert hch <;> decide
        rw [h8, h10]
    · rw [if_neg ho]
      rcases specImpliedBase_cases cs with hb | hb | hb
      · exact absurd (specBase16_hasSub cs hb) hx
      · exact absurd (specBase8_hasSub cs hb) ho
      · rw [hb]

/-- C7: the integer-literal validator accepts a value exactly when it
parses as a signed integer (Python `int`) under the prefix-implied base —
the code's substring-based base selection provably coincides with the
prefix-implied base on every input; in particular `int@10`, `int@0x1F` and
`int@0o17` are accepted while `int@1a` and `int@` are rejected with the
exit-23 syntax error. -/
theorem C7_integer_literal_grammar :
    (∀ cs : List Char, is_ippcode_integer cs = pyIntOk (specImpliedBase cs) cs) ∧
    parse_literal "int@10" = .ok ⟨"int", "10"⟩ ∧
    parse_literal "int@0x1F" = .ok ⟨"int", "0x1F"⟩ ∧
    parse_literal "int@0o17" = .ok ⟨"int", "0o17"⟩ ∧
    exceptCode (parse_literal "int@1a") = some 23 ∧
    exceptCode (parse_literal "int@") = some 23 ∧
    is_ippcode_integer "10".data = true ∧
    is_ippcode_integer "0x1F".data = true ∧
    is_ippcode_integer "0o17".data = true ∧
    is_ippcode_integer "1a".data = false ∧
    is_ippcode_integer "".data = false := by
  refine ⟨is_ippcode_integer_eq_specBase, ?_⟩
  decide

/-- C10: the integer-literal validator also accepts underscore digit
separators — `int@1_0` and `int@0x1_F` pass although their values are not
plain digit strings, and the value text reaches the XML output verbatim. -/
theorem C10_underscore_separators :
    parse_literal "int@1_0" = .ok ⟨"int", "1_0"⟩ ∧
    parse_literal "int@0x1_F" = .ok ⟨"int", "0x1_F"⟩ ∧
    "1_0".data.all Char.isDigit = false ∧
    "0x1_F".data.all isHexDigit = false ∧
    (runPipeline [".IPPcode24", "PUSHS int@1_0"]).1 =
      "<?xml version=\"1.0\" encoding=\"utf-8\"?>\n<program language=\"IPPcode24\">\n    <instruction order=\"1\" opcode=\"PUSHS\">\n        <arg1 type=\"int\">1_0</arg1>\n    </instruction>\n</program>\n" := by
  decide

/-- C1 counterexample: the serializer tags a variable operand `var`, not
`variable`, and a label operand `lable`, not `label`, so the claimed tag
names are wrong on the code. -/
theorem C1_counterexample :
    parse_variable "GF@x" = .ok ⟨"var", "GF@x"⟩ ∧
    ("var" : String) ≠ "variable" ∧
    parse_label "end" = .ok ⟨"lable", "end"⟩ ∧
    ("lable" : String) ≠ "label" ∧
    (runPipeline [".IPPcode24", "DEFVAR GF@x", "LABEL end"]).1 =
      "<?xml version=\"1.0\" encoding=\"utf-8\"?>\n<program language=\"IPPcode24\">\n    <instruction order=\"1\" opcode=\"DEFVAR\">\n        <arg1 type=\"var\">GF@x</arg1>\n    </instruction>\n    <instruction order=\"2\" opcode=\"LABEL\">\n        <arg1 type=\"lable\">end</arg1>\n    </instruction>\n</program>\n" := by
  decide

/-- C5 counterexample: a single argument other than `--help` is not a usage
error — `main` falls through and `fileinput` treats it as an input file
name, so the run parses that file's lines (here exiting 0), instead of
failing with exit code 10. -/
theorem C5_counterexample :
    cliAction ["program.ipp"] = CliAction.runInput ["program.ipp"] ∧
    cliAction ["program.ipp"] ≠ CliAction.usageError ∧
    mainRun ["program.ipp"] [".IPPcode24"] =
      ("<?xml version=\"1.0\" encoding=\"utf-8\"?>\n<program language=\"IPPcode24\"/>\n", 0) := by
  decide

/-- C9 counterexample: the document is written with `addindent` of four
spaces, not two — the instruction element is indented four spaces and its
argument eight, so the claimed 2-space rendering differs from the actual
output. -/
theorem C9_counterexample :
    (runPipeline [".IPPcode24", "DEFVAR GF@x"]).1 =
      "<?xml version=\"1.0\" encoding=\"utf-8\"?>\n<program language=\"IPPcode24\">\n    <instruction order=\"1\" opcode=\"DEFVAR\">\n        <arg1 type=\"var\">GF@x</arg1>\n    </instruction>\n</program>\n" ∧
    (runPipeline [".IPPcode24", "DEFVAR GF@x"]).1 ≠
      "<?xml version=\"1.0\" encoding=\"utf-8\"?>\n<program language=\"IPPcode24\">\n  <instruction order=\"1\" opcode=\"DEFVAR\">\n    <arg1 type=\"var\">GF@x</arg1>\n  </instruction>\n</program>\n" := by
  decide

/-- C5 as amended: exactly `--help` prints the usage text and exits 0
without parsing; two or more arguments are the exit-10 usage error; no
arguments reads the default input source; and a single argument other than
`--help` is treated as an input file name and parsed, not rejected. -/
theorem C5_amended_cli (args inputLines : List String) :
    (args = ["--help"] → mainRun args inputLines = (HELP ++ "\n", 0)) ∧
    (2 ≤ args.length → mainRun args inputLines = ("", 10)) ∧
    (args = [] → mainRun args inputLines = runPipeline inputLines) ∧
    (∀ a, args = [a] → a ≠ "--help" → mainRun args inputLines = runPipeline inputLines) := by
  refine ⟨?_, ?_, ?_, ?_⟩
  · intro h; subst h; rfl
  · intro h
    have h1 : args ≠ ["--help"] := by
      intro he; subst he; simp at h
    have h2 : args.length > 1 := h
    simp [mainRun, cliAction, h1, h2]
  · intro h; subst h; rfl
  · intro a h hne; subst h
    simp [mainRun, cliAction, hne]

/-- Witness for C5: invoking with exactly `--help` prints the usage text and
exits 0. -/
theorem C5_amended_cli_witness : mainRun ["--help"] [] = (HELP ++ "\n", 0) :=
  (C5_amended_cli ["--help"] []).1 rfl

/-- C6 as amended: the parsing pipeline is fail-fast — whenever the parse
of the input lines stops with an error (header scan, dispatch or operand
validation), the run writes nothing to standard output and exits with that
error's code, even when instructions had already been yielded before the
failure.  (An output failure is different: it strikes while the finished
document is being streamed to standard output and can leave a partial
document there — see `C6_counterexample`.) -/
theorem C6_fail_fast (lines : List String) (e : PErr)
    (h : (parse_program lines).2 = some e) :
    runPipeline lines = ("", e.code) ∧
    ∀ args fs, cliAction args = CliAction.runInput fs → mainRun args lines = ("", e.code) := by
  have hrun : runPipeline lines = ("", e.code) := by
    unfold runPipeline instructions_to_xml
    rw [h]
  refine ⟨hrun, ?_⟩
  intro args fs hcli
  simp only [mainRun, hcli]
  exact hrun

/-- Witness for C6: an unknown opcode on the third line aborts with exit
code 22 and empty standard output, although one instruction had already been
produced. -/
theorem C6_fail_fast_witness :
    runPipeline [".IPPcode24", "DEFVAR GF@x", "FOO"] = ("", 22) :=
  (C6_fail_fast [".IPPcode24", "DEFVAR GF@x", "FOO"]
    ⟨"Neznámý nebo chybný operační kód: " ++ q "FOO", 22⟩ (by decide)).1

/-- C6 counterexample, for the claim's output-failure clause: `writexml`
streams the document to standard output through a sequence of
`writer.write` calls whose concatenation is `renderDocument`, and every
line boundary of the document falls between two such calls (each element's
line ends with a write of its closing `>`/`/>` plus the newline).  An
output failure striking after the first three lines of this accepted
program therefore leaves exactly those 114 characters — a partial document
that already contains an instruction element — on standard output, and the
run exits 12 (the `except` arm around `writexml`): XML has been partially
emitted on an error, contrary to the claim. -/
theorem C6_counterexample :
    parse_program [".IPPcode24", "DEFVAR GF@x"] =
      ([⟨1, "DEFVAR", [⟨"var", "GF@x"⟩]⟩], none) ∧
    (renderDocument [⟨1, "DEFVAR", [⟨"var", "GF@x"⟩]⟩]).take 114 =
      "<?xml version=\"1.0\" encoding=\"utf-8\"?>\n<program language=\"IPPcode24\">\n    <instruction order=\"1\" opcode=\"DEFVAR\">\n" ∧
    (renderDocument [⟨1, "DEFVAR", [⟨"var", "GF@x"⟩]⟩]).take 114 ≠ "" ∧
    (renderDocument [⟨1, "DEFVAR", [⟨"var", "GF@x"⟩]⟩]).take 114 ≠
      renderDocument [⟨1, "DEFVAR", [⟨"var", "GF@x"⟩]⟩] := by
  refine ⟨by decide, by decide, by decide, by decide⟩

/-- A matched prefix decomposes the list as that prefix and the rest. -/
theorem stripPre_eq : ∀ (p cs rest : List Char), stripPre p cs = some rest → cs = p ++ rest := by
  intro p
  induction p with
  | nil =>
    intro cs rest h
    simp [stripPre] at h
    simp [h]
  | cons a ps ih =>
    intro cs rest h
    cases cs with
    | nil => simp [stripPre] at h
    | cons c cs2 =>
      unfold stripPre at h
      split at h
      · rename_i hc
        have := ih cs2 rest h
        simp [hc, this]
      · exact Option.noConfusion h

theorem splitLiteral_eq (cs : List Char) (t : String) (v : List Char)
    (h : splitLiteral cs = some (t, v)) :
    (t = "int" ∨ t = "bool" ∨ t = "string" ∨ t = "nil") ∧
    cs = t.data ++ '@' :: v := by
  unfold splitLiteral at h
  split at h
  case h_1 rest heq =>
    injection h with h2
    injection h2 with ha hb
    subst ha; subst hb
    refine ⟨by simp, ?_⟩
    rw [stripPre_eq _ _ _ heq]
    rfl
  case h_2 heq1 =>
    split at h
    case h_1 rest heq =>
      injection h with h2
      injection h2 with ha hb
      subst ha; subst hb
      refine ⟨by simp, ?_⟩
      rw [stripPre_eq _ _ _ heq]
      rfl
    case h_2 heq2 =>
      split at h
      case h_1 rest heq =>
        injection h with h2
        injection h2 with ha hb
        subst ha; subst hb
        refine ⟨by simp, ?_⟩
        rw [stripPre_eq _ _ _ heq]
        rfl
      case h_2 heq3 =>
        split at h
        case h_1 rest heq =>
          injection h with h2
          injection h2 with ha hb
          subst ha; subst hb
          refine ⟨by simp, ?_⟩
          rw [stripPre_eq _ _ _ heq]
          rfl
        case h_2 heq4 => exact Option.noConfusion h

/-- C1 as amended: every argument the validators build (and the serializer
then emits as the `type` attribute, see `renderArg`) carries the tag the
code actually uses — literal kinds carry the literal type name, variables
the tag `var`, labels the tag `lable`, type-names the tag `type`. -/
theorem C1_amended_tags (s : String) (a : Argument) :
    (parse_variable s = .ok a → a.ipptype = "var") ∧
    (parse_label s = .ok a → a.ipptype = "lable") ∧
    (parse_type s = .ok a → a.ipptype = "type") ∧
    (parse_literal s = .ok a →
      (a.ipptype = "int" ∨ a.ipptype = "bool" ∨ a.ipptype = "string" ∨ a.ipptype = "nil") ∧
      s.data = a.ipptype.data ++ '@' :: a.text.data) := by
  refine ⟨?_, ?_, ?_, ?_⟩
  · intro h
    unfold parse_variable at h
    split at h
    · injection h with h2; rw [← h2]
    · exact Except.noConfusion h
  · intro h
    unfold parse_label at h
    split at h
    · injection h with h2; rw [← h2]
    · exact Except.noConfusion h
  · intro h
    unfold parse_type at h
    split at h
    · injection h with h2; rw [← h2]
    · exact Except.noConfusion h
  · intro h
    unfold parse_literal at h
    revert h
    cases hsplit : splitLiteral s.data with
    | none => intro h; exact Except.noConfusion h
    | some pr =>
      obtain ⟨typestr, value⟩ := pr
      intro h
      dsimp only at h
      have hs := splitLiteral_eq s.data typestr value hsplit
      split at h
      · exact Except.noConfusion h
      split at h
      · exact Except.noConfusion h
      split at h
      · exact Except.noConfusion h
      split at h
      · exact Except.noConfusion h
      injection h with h2
      subst h2
      exact ⟨hs.1, hs.2⟩

/-- Witness for C1: the variable `GF@x` is parsed into an argument whose
type tag is `var`. -/
theorem C1_amended_tags_witness :
    (Argument.mk "var" "GF@x").ipptype = "var" :=
  (C1_amended_tags "GF@x" ⟨"var", "GF@x"⟩).1 (by decide)

/-- A successfully built instruction carries exactly the order number passed
to the dispatch step. -/
theorem parseTokens_order (k : Nat) (ts : List String) (i : Instruction)
    (h : parseTokens k ts = .ok (some i)) : i.order = k := by
  unfold parseTokens at h
  repeat' split at h
  all_goals (try exact Except.noConfusion h)
  all_goals (injection h with h2)
  all_goals (try exact Option.noConfusion h2)
  all_goals (injection h2 with h3; cases h3; rfl)

/-- Every instruction in the trace of the line loop started at counter `k`
has order `k` plus its position. -/
theorem parseLinesT_orders (ls : List String) (k : Nat) :
    ∀ n i, (parseLinesT k ls).1[n]? = some i → i.order = k + n := by
  induction ls generalizing k with
  | nil =>
    intro n i h
    simp [parseLinesT] at h
  | cons l ls ih =>
    intro n i h
    unfold parseLinesT at h
    revert h
    cases hpt : parseTokens k (tokenize_line l) with
    | error e => intro h; simp at h
    | ok oi =>
      cases oi with
      | none => intro h; exact ih k n i h
      | some j =>
        intro h
        cases n with
        | zero =>
          simp at h
          subst h
          simpa using parseTokens_order k (tokenize_line l) j hpt
        | succ n =>
          simp at h
          have := ih (k + 1) n i h
          omega

/-- C2: in every accepted program the Nth produced instruction has order N —
orders start at 1 and are gapless, however many blank or comment lines
intervene (those arms of the loop skip the counter increment); the
serializer writes that order verbatim (see `renderInstruction`). -/
theorem C2_order_numbers (lines : List String) (instrs : List Instruction)
    (h : parse_program lines = (instrs, none)) :
    ∀ n i, instrs[n]? = some i → i.order = n + 1 := by
  intro n i hi
  unfold parse_program at h
  revert h
  cases hf : find_header lines with
  | none => intro h; simp at h
  | some idx =>
    intro h
    dsimp only at h
    have h1 : (parseLinesT 1 (lines.drop (idx + 1))).1 = instrs := by
      rw [h]
    have := parseLinesT_orders (lines.drop (idx + 1)) 1 n i (by rw [h1]; exact hi)
    omega

/-- Witness for C2: a program with blank and comment lines between its two
instructions numbers them 1 and 2. -/
theorem C2_order_numbers_witness :
    (Instruction.mk 2 "MOVE" [⟨"var", "GF@x"⟩, ⟨"int", "5"⟩]).order = 1 + 1 :=
  C2_order_numbers [".IPPcode24", "", "# c", "DEFVAR GF@x", "", "MOVE GF@x int@5"]
    [⟨1, "DEFVAR", [⟨"var", "GF@x"⟩]⟩, ⟨2, "MOVE", [⟨"var", "GF@x"⟩, ⟨"int", "5"⟩]⟩]
    (by decide) 1 (Instruction.mk 2 "MOVE" [⟨"var", "GF@x"⟩, ⟨"int", "5"⟩]) (by decide)

/-- The niladic opcodes are recognised and matched by one token. -/
theorem nullaryOps_facts : ∀ s ∈ nullaryOps, s ∈ OPCODES ∧ requiredTokens s = 1 := by
  intro s hs; fin_cases hs <;> exact ⟨by decide, by decide⟩

/-- The one-label opcodes are recognised and matched by two tokens. -/
theorem labelOps_facts : ∀ s ∈ labelOps, s ∈ OPCODES ∧ requiredTokens s = 2 := by
  intro s hs; fin_cases hs <;> exact ⟨by decide, by decide⟩

/-- The variable-symbol opcodes are recognised and matched by three tokens. -/
theorem varSymbOps_facts : ∀ s ∈ varSymbOps, s ∈ OPCODES ∧ requiredTokens s = 3 := by
  intro s hs; fin_cases hs <;> exact ⟨by decide, by decide⟩

/-- The variable-symbol-symbol opcodes are recognised and matched by four
tokens. -/
theorem varSymbSymbOps_facts : ∀ s ∈ varSymbSymbOps, s ∈ OPCODES ∧ requiredTokens s = 4 := by
  intro s hs; fin_cases hs <;> exact ⟨by decide, by decide⟩

/-- The one-symbol opcodes are recognised and matched by two tokens. -/
theorem symbOps_facts : ∀ s ∈ symbOps, s ∈ OPCODES ∧ requiredTokens s = 2 := by
  intro s hs; fin_cases hs <;> exact ⟨by decide, by decide⟩

/-- The one-variable opcodes are recognised and matched by two tokens. -/
theorem varOps_facts : ∀ s ∈ varOps, s ∈ OPCODES ∧ requiredTokens s = 2 := by
  intro s hs; fin_cases hs <;> exact ⟨by decide, by decide⟩

/-- The READ opcode is recognised and matched by three tokens. -/
theorem read_facts : ("READ" : String) ∈ OPCODES ∧ requiredTokens "READ" = 3 := by
  exact ⟨by decide, by decide⟩

/-- The label-symbol-symbol opcodes are recognised and matched by four
tokens. -/
theorem labelSymbSymbOps_facts : ∀ s ∈ labelSymbSymbOps, s ∈ OPCODES ∧ requiredTokens s = 4 := by
  intro s hs; fin_cases hs <;> exact ⟨by decide, by decide⟩

/-- C3: for every tokenized line, a first token outside the opcode table
fails with the exit-22 opcode error, while a recognised opcode whose token
count differs from its arm's arity fails with the exit-23 syntax error —
never the reverse. -/
theorem C3_dispatch_errors (k : Nat) (line : String) (hd : String) (rest : List String)
    (ht : tokenize_line line = hd :: rest) :
    (hd ∉ OPCODES → exceptCode (parseTokens k (hd :: rest)) = some 22) ∧
    (hd ∈ OPCODES → (hd :: rest).length ≠ requiredTokens hd →
      exceptCode (parseTokens k (hd :: rest)) = some 23) := by
  constructor
  · intro hno
    rcases rest with _ | ⟨a, _ | ⟨b, _ | ⟨c, _ | ds⟩⟩⟩
    · have h1 : hd ∉ nullaryOps := fun hm => hno (nullaryOps_facts hd hm).1
      simp [parseTokens, dispatchFallback, exceptCode, h1, hno]
    · have h1 : hd ∉ labelOps := fun hm => hno (labelOps_facts hd hm).1
      have h2 : hd ∉ symbOps := fun hm => hno (symbOps_facts hd hm).1
      have h3 : hd ∉ varOps := fun hm => hno (varOps_facts hd hm).1
      simp [parseTokens, dispatchFallback, exceptCode, h1, h2, h3, hno]
    · have h1 : hd ∉ varSymbOps := fun hm => hno (varSymbOps_facts hd hm).1
      have h2 : hd ≠ "READ" := fun hm => hno (hm ▸ read_facts.1)
      simp [parseTokens, dispatchFallback, exceptCode, h1, h2, hno]
    · have h1 : hd ∉ varSymbSymbOps := fun hm => hno (varSymbSymbOps_facts hd hm).1
      have h2 : hd ∉ labelSymbSymbOps := fun hm => hno (labelSymbSymbOps_facts hd hm).1
      simp [parseTokens, dispatchFallback, exceptCode, h1, h2, hno]
    · simp [parseTokens, dispatchFallback, exceptCode, hno]
  · intro hmem hlen
    rcases rest with _ | ⟨a, _ | ⟨b, _ | ⟨c, _ | ds⟩⟩⟩
    · have h1 : hd ∉ nullaryOps := fun hm => hlen (by simp [(nullaryOps_facts hd hm).2])
      simp [parseTokens, dispatchFallback, exceptCode, sourceErr, h1, hmem]
    · have h1 : hd ∉ labelOps := fun hm => hlen (by simp [(labelOps_facts hd hm).2])
      have h2 : hd ∉ symbOps := fun hm => hlen (by simp [(symbOps_facts hd hm).2])
      have h3 : hd ∉ varOps := fun hm => hlen (by simp [(varOps_facts hd hm).2])
      simp [parseTokens, dispatchFallback, exceptCode, sourceErr, h1, h2, h3, hmem]
    · have h1 : hd ∉ varSymbOps := fun hm => hlen (by simp [(varSymbOps_facts hd hm).2])
      have h2 : hd ≠ "READ" := fun hm => hlen (by simp [hm, read_facts.2])
      simp [parseTokens, dispatchFallback, exceptCode, sourceErr, h1, h2, hmem]
    · have h1 : hd ∉ varSymbSymbOps := fun hm => hlen (by simp [(varSymbSymbOps_facts hd hm).2])
      have h2 : hd ∉ labelSymbSymbOps := fun hm => hlen (by simp [(labelSymbSymbOps_facts hd hm).2])
      simp [parseTokens, dispatchFallback, exceptCode, sourceErr, h1, h2, hmem]
    · simp [parseTokens, dispatchFallback, exceptCode, sourceErr, hmem]

/-- Witness for C3: the unknown opcode `FOO` is rejected with exit code
22. -/
theorem C3_dispatch_errors_witness :
    exceptCode (parseTokens 1 ["FOO"]) = some 22 :=
  (C3_dispatch_errors 1 "foo" "FOO" [] (by decide)).1 (by decide)

/-- Characterisation of the header scan: it returns index `idx` exactly when
line `idx` is a well-formed header line and every earlier line is blank or
comment-only and not itself a header. -/
theorem find_header_some_iff (lines : List String) (idx : Nat) :
    find_header lines = some idx ↔
      ((∃ hline, lines[idx]? = some hline ∧ isHeaderLine hline = true) ∧
       ∀ j, j < idx → ∃ l, lines[j]? = some l ∧ isBlankOrCommentLine l = true ∧
         isHeaderLine l = false) := by
  induction lines generalizing idx with
  | nil => simp [find_header]
  | cons l ls ih =>
    unfold find_header
    by_cases hH : isHeaderLine l = true
    · rw [if_pos hH]
      cases idx with
      | zero =>
        simp only [List.getElem?_cons_zero]
        constructor
        · intro _
          exact ⟨⟨l, rfl, hH⟩, fun j hj => absurd hj (Nat.not_lt_zero j)⟩
        · intro _; trivial
      | succ n =>
        constructor
        · intro h; exact absurd h (by simp)
        · rintro ⟨_, hall⟩
          obtain ⟨l0, hl0, _, hhf⟩ := hall 0 (Nat.succ_pos n)
          simp only [List.getElem?_cons_zero, Option.some.injEq] at hl0
          rw [← hl0] at hhf
          rw [hH] at hhf
          exact Bool.noConfusion hhf
    · rw [if_neg hH]
      by_cases hB : isBlankOrCommentLine l = true
      · rw [if_pos hB]
        cases idx with
        | zero =>
          constructor
          · intro h
            exfalso
            rcases hmap : find_header ls with _ | m
            · rw [hmap] at h; exact Option.noConfusion h
            · rw [hmap] at h; simp at h
          · rintro ⟨⟨hline, hl, hhl⟩, _⟩
            simp only [List.getElem?_cons_zero, Option.some.injEq] at hl
            rw [← hl] at hhl
            exact absurd hhl hH
        | succ n =>
          have hmap : ((find_header ls).map (· + 1) = some (n + 1)) ↔
              find_header ls = some n := by
            cases find_header ls <;> simp
          rw [hmap, ih n]
          constructor
          · rintro ⟨⟨hline, hl, hhl⟩, hall⟩
            refine ⟨⟨hline, by simpa using hl, hhl⟩, ?_⟩
            intro j hj
            cases j with
            | zero =>
              exact ⟨l, by simp, hB, by simpa using hH⟩
            | succ m =>
              obtain ⟨lx, hlx, h1, h2⟩ := hall m (Nat.lt_of_succ_lt_succ hj)
              exact ⟨lx, by simpa using hlx, h1, h2⟩
          · rintro ⟨⟨hline, hl, hhl⟩, hall⟩
            refine ⟨⟨hline, by simpa using hl, hhl⟩, ?_⟩
            intro j hj
            obtain ⟨lx, hlx, h1, h2⟩ := hall (j + 1) (Nat.succ_lt_succ hj)
            exact ⟨lx, by simpa using hlx, h1, h2⟩
      · rw [if_neg hB]
        cases idx with
        | zero =>
          constructor
          · intro h; exact Option.noConfusion h
          · rintro ⟨⟨hline, hl, hhl⟩, _⟩
            simp only [List.getElem?_cons_zero, Option.some.injEq] at hl
            rw [← hl] at hhl
            exact absurd hhl hH
        | succ n =>
          constructor
          · intro h; exact Option.noConfusion h
          · rintro ⟨_, hall⟩
            obtain ⟨l0, hl0, hbc, _⟩ := hall 0 (Nat.succ_pos n)
            simp only [List.getElem?_cons_zero, Option.some.injEq] at hl0
            rw [← hl0] at hbc
            exact absurd hbc hB

/-- C4: the header scanner returns the index of the first well-formed header
line (the fixed token `.IPPcode24`, case-sensitive, surrounded only by
inline whitespace and an optional trailing comment — see `isHeaderLine`)
after skipping leading blank or comment-only lines; when no such index
exists (a junk line first, or no header at all) the parse fails with the
exit-21 header error. -/
theorem C4_header_scan (lines : List String) :
    (∀ idx, find_header lines = some idx ↔
      ((∃ hline, lines[idx]? = some hline ∧ isHeaderLine hline = true) ∧
       ∀ j, j < idx → ∃ l, lines[j]? = some l ∧ isBlankOrCommentLine l = true ∧
         isHeaderLine l = false)) ∧
    (find_header lines = none →
      parse_program lines = ([], some headerErr) ∧ headerErr.code = 21) :=
  ⟨fun idx => find_header_some_iff lines idx,
   fun hnone => ⟨by unfold parse_program; rw [hnone], rfl⟩⟩

/-- Witness for C4: a header preceded by a comment line and a blank line is
found at index 2, and both earlier lines are blank or comment-only. -/
theorem C4_header_scan_witness :
    (∃ hline, (["# c", "", "  .IPPcode24 # x", "MOVE"] : List String)[2]? = some hline ∧
      isHeaderLine hline = true) ∧
    ∀ j, j < 2 → ∃ l, (["# c", "", "  .IPPcode24 # x", "MOVE"] : List String)[j]? = some l ∧
      isBlankOrCommentLine l = true ∧ isHeaderLine l = false :=
  ((C4_header_scan ["# c", "", "  .IPPcode24 # x", "MOVE"]).1 2).mp (by decide)

/-- The character class of the string-literal grammar coincides with the
specification's description of a plain string character. -/
theorem stringCharOk_iff (c : Char) :
    stringCharOk c = true ↔
      (isRawWhitespace c = false ∧ isAsciiControl c = false ∧ c ≠ '#' ∧ c ≠ '\\') := by
  have hb : (c.toNat ≤ 0x1f) ↔ (c.toNat < 0x20) := by omega
  simp only [stringCharOk, isRawWhitespace, isAsciiControl, Bool.not_eq_true',
    decide_eq_false_iff_not, Bool.or_eq_false_iff, beq_eq_false_iff_ne, ne_eq, not_or, hb]
  tauto

/-- Bounded-length forward direction of the string-grammar
characterisation. -/
theorem stringValueOk_spec_mp :
    ∀ n (v : List Char), v.length ≤ n → stringValueOk v = true → SpecStringSeq v := by
  intro n
  induction n with
  | zero =>
    intro v hlen h
    have hv : v = [] := List.eq_nil_of_length_eq_zero (Nat.le_zero.mp hlen)
    subst hv
    exact SpecStringSeq.nil
  | succ n ih =>
    intro v hlen h
    rcases v with _ | ⟨c, cs⟩
    · exact SpecStringSeq.nil
    · rw [stringValueOk.eq_def] at h
      dsimp only at h
      by_cases hc : c = '\\'
      · rw [if_pos hc] at h
        subst hc
        rcases cs with _ | ⟨d1, _ | ⟨d2, _ | ⟨d3, rest⟩⟩⟩
        · exact absurd h (by simp)
        · exact absurd h (by simp)
        · exact absurd h (by simp)
        · simp only [Bool.and_eq_true] at h
          refine SpecStringSeq.esc d1 d2 d3 rest h.1.1.1 h.1.1.2 h.1.2 ?_
          refine ih rest ?_ h.2
          simp only [List.length_cons] at hlen
          omega
      · rw [if_neg hc] at h
        simp only [Bool.and_eq_true] at h
        obtain ⟨hra, hct, hh, hbs⟩ := (stringCharOk_iff c).mp h.1
        refine SpecStringSeq.plain c cs hra hct hh hbs ?_
        refine ih cs ?_ h.2
        simp only [List.length_cons] at hlen
        omega

/-- C8: the string-literal value grammar accepts exactly the sequences of
allowed plain characters and three-digit backslash escapes; in particular
`string@ab\032cd` is accepted while `string@a\32b` (two digits) and a value
with a raw space are rejected with the exit-23 syntax error. -/
theorem C8_string_literal_grammar :
    (∀ v : List Char, stringValueOk v = true ↔ SpecStringSeq v) ∧
    parse_literal "string@ab\\032cd" = .ok ⟨"string", "ab\\032cd"⟩ ∧
    exceptCode (parse_literal "string@a\\32b") = some 23 ∧
    exceptCode (parse_literal "string@a b") = some 23 := by
  refine ⟨?_, by decide, by decide, by decide⟩
  intro v
  constructor
  · exact stringValueOk_spec_mp v.length v le_rfl
  · intro h
    induction h with
    | nil => rfl
    | plain c cs h1 h2 h3 h4 _ ih =>
      rw [stringValueOk.eq_def]
      dsimp only
      rw [if_neg h4]
      simp only [Bool.and_eq_true]
      exact ⟨(stringCharOk_iff c).mpr ⟨h1, h2, h3, h4⟩, ih⟩
    | esc d1 d2 d3 cs h1 h2 h3 _ ih =>
      rw [stringValueOk.eq_def]
      dsimp only
      rw [if_pos rfl]
      simp only [Bool.and_eq_true]
      exact ⟨⟨⟨h1, h2⟩, h3⟩, ih⟩

/-- String concatenation is associative (lifted from list append). -/
theorem str_append_assoc (a b c : String) : a ++ b ++ c = a ++ (b ++ c) := by
  apply String.ext
  simp [String.data_append, List.append_assoc]

/-- Joining lines distributes over list append. -/
theorem joinLines_append (xs ys : List String) :
    joinLines (xs ++ ys) = joinLines xs ++ joinLines ys := by
  induction xs with
  | nil =>
    show joinLines ys = "" ++ joinLines ys
    apply String.ext
    simp [String.data_append]
  | cons x xs ih =>
    show x ++ "\n" ++ joinLines (xs ++ ys) = x ++ "\n" ++ joinLines xs ++ joinLines ys
    rw [ih]
    apply String.ext
    simp [String.data_append, List.append_assoc]

/-- One rendered argument element equals its specification line plus its
terminating newline. -/
theorem renderArg_eq_spec (idx : Nat) (a : Argument) :
    renderArg (addindent ++ addindent) idx a = specArgLine idx a ++ "\n" := by
  apply String.ext
  simp only [renderArg, specArgLine, renderAttr, q, addindent, String.data_append,
    List.append_assoc]
  rfl

/-- The rendered argument children equal their specification lines. -/
theorem renderArgs_eq_spec (args : List Argument) (idx : Nat) :
    renderArgs (addindent ++ addindent) idx args = joinLines (specArgLines idx args) := by
  induction args generalizing idx with
  | nil => rfl
  | cons a rest ih =>
    show renderArg (addindent ++ addindent) idx a ++
        renderArgs (addindent ++ addindent) (idx + 1) rest =
      specArgLine idx a ++ "\n" ++ joinLines (specArgLines (idx + 1) rest)
    rw [ih, renderArg_eq_spec]

/-- One rendered instruction element equals its specification lines. -/
theorem renderInstruction_eq_spec (i : Instruction) :
    renderInstruction addindent i = joinLines (specInstrLines i) := by
  rcases i with ⟨ord, opc, args⟩
  rcases args with _ | ⟨a, rest⟩
  · apply String.ext
    simp only [renderInstruction, specInstrLines, joinLines, renderAttr, q, addindent,
      String.data_append, List.append_assoc, List.append_nil]
    rfl
  · show addindent ++ "<instruction" ++ renderAttr "order" (toString ord) ++
        renderAttr "opcode" opc ++ ">" ++ "\n" ++
        renderArgs (addindent ++ addindent) 1 (a :: rest) ++
        addindent ++ "</instruction>" ++ "\n" =
      joinLines ((("    <instruction order=" ++ q (escapeXml (toString ord)) ++ " opcode=" ++
        q (escapeXml opc) ++ ">") :: specArgLines 1 (a :: rest) ++ ["    </instruction>"]))
    rw [show ((("    <instruction order=" ++ q (escapeXml (toString ord)) ++ " opcode=" ++
        q (escapeXml opc) ++ ">") :: specArgLines 1 (a :: rest) ++ ["    </instruction>"]) :
        List String) =
      ("    <instruction order=" ++ q (escapeXml (toString ord)) ++ " opcode=" ++
        q (escapeXml opc) ++ ">") :: (specArgLines 1 (a :: rest) ++ ["    </instruction>"])
      from rfl]
    show _ = ("    <instruction order=" ++ q (escapeXml (toString ord)) ++ " opcode=" ++
        q (escapeXml opc) ++ ">") ++ "\n" ++
      joinLines (specArgLines 1 (a :: rest) ++ ["    </instruction>"])
    rw [joinLines_append, ← renderArgs_eq_spec]
    apply String.ext
    simp only [renderAttr, q, addindent, joinLines, String.data_append, List.append_assoc,
      List.append_nil]
    rfl

/-- The rendered instruction children equal the flattened specification
lines. -/
theorem concatMap_instrs_eq_spec (instrs : List Instruction) :
    concatMapStr (renderInstruction addindent) instrs =
      joinLines ((instrs.map specInstrLines).foldr (· ++ ·) []) := by
  induction instrs with
  | nil => rfl
  | cons i rest ih =>
    show renderInstruction addindent i ++ concatMapStr (renderInstruction addindent) rest =
      joinLines (specInstrLines i ++ (rest.map specInstrLines).foldr (· ++ ·) [])
    rw [joinLines_append, renderInstruction_eq_spec, ih]

/-- The document minidom writes equals the joined specification lines. -/
theorem renderDocument_eq_spec (instrs : List Instruction) :
    renderDocument instrs = joinLines (specDocLines instrs) := by
  rcases instrs with _ | ⟨i, rest⟩
  · apply String.ext
    simp only [renderDocument, renderProgram, specDocLines, joinLines, renderAttr, q,
      String.data_append, List.append_assoc, List.append_nil]
    rfl
  · show xmlDecl ++ "\n" ++
        ("<program" ++ renderAttr "language" "IPPcode24" ++ ">" ++ "\n" ++
          concatMapStr (renderInstruction addindent) (i :: rest) ++ "</program>" ++ "\n") =
      joinLines (specDocLines (i :: rest))
    show _ = joinLines ([xmlDecl, "<program language=" ++ q "IPPcode24" ++ ">"] ++
      ((i :: rest).map specInstrLines).foldr (· ++ ·) [] ++ ["</program>"])
    rw [joinLines_append, joinLines_append, concatMap_instrs_eq_spec]
    apply String.ext
    simp only [renderAttr, q, joinLines, xmlDecl, String.data_append, List.append_assoc,
      List.append_nil]
    rfl

/-- C9 as amended: for every accepted program the emitted document is the
declaration line followed by a `program` element with the fixed language
attribute, one `instruction order opcode` element per instruction with its
`argN type` children, indented FOUR spaces per nesting level (the
`addindent` actually passed to `writexml`), each element's line terminated
by a newline. -/
theorem C9_amended_rendering (lines : List String) (instrs : List Instruction)
    (h : parse_program lines = (instrs, none)) :
    runPipeline lines = (joinLines (specDocLines instrs), 0) ∧
    ∀ args fs, cliAction args = CliAction.runInput fs →
      mainRun args lines = (joinLines (specDocLines instrs), 0) := by
  have hrun : runPipeline lines = (renderDocument instrs, 0) := by
    unfold runPipeline
    rw [h]
    rfl
  rw [renderDocument_eq_spec] at hrun
  refine ⟨hrun, ?_⟩
  intro args fs hcli
  simp only [mainRun, hcli]
  exact hrun

/-- Witness for C9: the spec's two-instruction example renders to the
4-space-indented document. -/
theorem C9_amended_rendering_witness :
    runPipeline [".IPPcode24", "DEFVAR GF@x", "MOVE GF@x int@5"] =
      (joinLines (specDocLines
        [⟨1, "DEFVAR", [⟨"var", "GF@x"⟩]⟩,
         ⟨2, "MOVE", [⟨"var", "GF@x"⟩, ⟨"int", "5"⟩]⟩]), 0) :=
  (C9_amended_rendering [".IPPcode24", "DEFVAR GF@x", "MOVE GF@x int@5"]
    [⟨1, "DEFVAR", [⟨"var", "GF@x"⟩]⟩,
     ⟨2, "MOVE", [⟨"var", "GF@x"⟩, ⟨"int", "5"⟩]⟩] (by decide)).1

end IppParse
